import Mathlib

/-!
Verification of the `tls` per-thread-affinity library (kgorking/tls).

The C++ headers under `include/tls/` are shallowly embedded as state machines
over explicit registry states.  A registry (`tls::collect`, `tls::split`,
`tls::splitter`) keeps a singly linked list of per-thread slots; we model the
list as a `List Nat` of thread ids (head first, matching the prepend in
`init_thread`) and the per-thread `thread_data` storage as a total function
from thread ids to slots.  All events (a thread touching `local()`, a thread
dying, `gather`, `reset`, ...) are serialized, matching the mutex discipline
of the source (every structural operation runs under the registry mutex).
-/

namespace TLS

/-! ## tls::collect (include/tls/collect.h) -/

namespace Collect

/-- One `thread_data` record of `tls::collect`: the payload `data` and whether
`owner` points at the (single, modelled) collect instance.  A dead or
never-registered thread has `owner = false`. -/
structure Slot (T : Type) where
  data : T
  owner : Bool

/-- The state of one `tls::collect` instance together with the thread-local
slots of all threads: `head` is the linked list of registered thread ids
(head first), `buffer` is the `std::vector<T> data` member holding payloads
of dead threads, `slots` is the per-thread `thread_local thread_data`. -/
structure State (T : Type) where
  head : List Nat
  buffer : List T
  slots : Nat → Slot T

variable {T : Type} [Inhabited T]

/-- Fresh program state: no thread registered, empty buffer, every
thread-local slot default-initialized (`T data{}; collect* owner{};`). -/
def initState : State T :=
  ⟨[], [], fun _ => ⟨default, false⟩⟩

/-- Replace thread `i`'s slot. -/
def setSlot (s : State T) (i : Nat) (sl : Slot T) : State T :=
  { s with slots := fun j => if j = i then sl else s.slots j }

/-- `collect::init_thread`: link the slot at the head of the list. -/
def init_thread (s : State T) (i : Nat) : State T :=
  { s with head := i :: s.head }

/-- `thread_data::get` as called from `collect::local()`: if the slot has no
owner, reset its payload to `T{}`, take ownership and register; otherwise the
existing slot is returned unchanged. -/
def local_get (s : State T) (i : Nat) : State T :=
  if (s.slots i).owner then s
  else init_thread (setSlot s i ⟨default, true⟩) i

/-- The value of `local()` for thread `i`: the payload of the slot after
`thread_data::get` ran. -/
def localVal (s : State T) (i : Nat) : T :=
  ((local_get s i).slots i).data

/-- Mutating the payload through the reference returned by `local()`
(e.g. `acc.local() += v`). -/
def local_mod (s : State T) (i : Nat) (f : T → T) : State T :=
  let s' := local_get s i
  setSlot s' i ⟨f ((s'.slots i).data), ((s'.slots i).owner)⟩

/-- `collect::remove_thread`: push the dying thread's payload into the
buffer, reset the payload, unlink the slot. -/
def remove_thread (s : State T) (i : Nat) : State T :=
  { head := s.head.erase i,
    buffer := s.buffer ++ [(s.slots i).data],
    slots := fun j => if j = i then ⟨default, false⟩ else s.slots j }

/-- `thread_data::~thread_data`, run when thread `i` dies: calls
`remove_thread` only when the slot has an owner.  The thread-local slot
itself is destroyed with the thread; we model the destroyed slot as an
unowned default slot. -/
def thread_exit (s : State T) (i : Nat) : State T :=
  if (s.slots i).owner then remove_thread s i else s

/-- The vector returned by `collect::gather()`: the buffered payloads
followed by every registered thread's payload in list order. -/
def gatherResult (s : State T) : List T :=
  s.buffer ++ s.head.map (fun i => (s.slots i).data)

/-- The state after `collect::gather()`: the buffer was moved out (left
empty), every traversed slot's payload was reset to `T{}`, and the thread
list is untouched. -/
def gatherState (s : State T) : State T :=
  { head := s.head,
    buffer := [],
    slots := fun j => if j ∈ s.head then ⟨default, (s.slots j).owner⟩ else s.slots j }

/-- `collect::reset()`: every registered slot with this owner is detached
(`thread_data::remove`: payload and owner cleared), the list and the buffer
are emptied. -/
def reset (s : State T) : State T :=
  { head := [],
    buffer := [],
    slots := fun j =>
      if j ∈ s.head ∧ (s.slots j).owner = true then ⟨default, false⟩ else s.slots j }

/-- Serialized events against one collect instance. -/
inductive Ev (T : Type) where
  | mod (i : Nat) (f : T → T)
  | exit (i : Nat)

/-- One event step. -/
def step (s : State T) : Ev T → State T
  | .mod i f => local_mod s i f
  | .exit i => thread_exit s i

/-- Run a serialized event sequence. -/
def run (s : State T) (es : List (Ev T)) : State T :=
  es.foldl step s

/-- Structural invariant of a collect instance: the thread list holds no
duplicates and a slot is owned exactly when its thread is linked. -/
def WF (s : State T) : Prop :=
  s.head.Nodup ∧ ∀ i, (s.slots i).owner = true ↔ i ∈ s.head

/-- The event `acc.local() += p.2` issued by thread `p.1`. -/
def addEv (p : Nat × Int) : Ev Int :=
  .mod p.1 (fun x => x + p.2)

/-- All payload data held by a collect state is the default value: the
buffered payloads and every registered thread's payload. -/
def AllDefault (s : State T) : Prop :=
  (∀ x ∈ s.buffer, x = default) ∧ (∀ i ∈ s.head, (s.slots i).data = default)

/-- The elements appended to the output iterator by
`collect::gather_flattened` when the payload type is a sequence: the
buffered sub-sequences are flattened first, then every registered thread's
sub-sequence in list order. -/
def flatResult {α : Type} (s : State (List α)) : List α :=
  s.buffer.flatten ++ (s.head.map (fun i => (s.slots i).data)).flatten

/-- The state after `collect::gather_flattened`: the buffer is cleared
(`data.clear()`) and every registered thread's container is reset in place
(`*ptr_t = T{}`); the thread list is untouched. -/
def flatState {α : Type} (s : State (List α)) : State (List α) :=
  { head := s.head,
    buffer := [],
    slots := fun j => if j ∈ s.head then ⟨[], (s.slots j).owner⟩ else s.slots j }

/-- Serialized events of a sequence-valued collect:
`collector.local().push_back(x)` and thread death. -/
inductive PushEv (α : Type) where
  | push (i : Nat) (x : α)
  | exitEv (i : Nat)

/-- A push/exit event as a generic collect event. -/
def PushEv.toEv {α : Type} : PushEv α → Ev (List α)
  | .push i x => .mod i (fun l => l ++ [x])
  | .exitEv i => .exit i

/-- All elements pushed over a push/exit trace, in trace order. -/
def pushedElems {α : Type} : List (PushEv α) → List α
  | [] => []
  | .push _ x :: es => x :: pushedElems es
  | .exitEv _ :: es => pushedElems es

/-- The payloads visited by `collect::for_each`: every registered thread's
payload first, then the buffered payloads. -/
def visit_list (s : State T) : List T :=
  s.head.map (fun i => (s.slots i).data) ++ s.buffer

end Collect

/-! ## tls::split (include/tls/split.h)

Same slot lifecycle as `tls::collect` but the Discard policy: a dying
thread's payload is dropped, there is no aggregate buffer. -/

namespace Split

/-- One `thread_data` record of `tls::split`. -/
structure Slot (T : Type) where
  data : T
  owner : Bool

/-- The state of one `tls::split` instance plus all thread-local slots. -/
structure State (T : Type) where
  head : List Nat
  slots : Nat → Slot T

variable {T : Type} [Inhabited T]

/-- Fresh program state. -/
def initState : State T :=
  ⟨[], fun _ => ⟨default, false⟩⟩

/-- Replace thread `i`'s slot. -/
def setSlot (s : State T) (i : Nat) (sl : Slot T) : State T :=
  { s with slots := fun j => if j = i then sl else s.slots j }

/-- `split::init_thread`: link the slot at the head of the list. -/
def init_thread (s : State T) (i : Nat) : State T :=
  { s with head := i :: s.head }

/-- `thread_data::get` as called from `split::local()`. -/
def local_get (s : State T) (i : Nat) : State T :=
  if (s.slots i).owner then s
  else init_thread (setSlot s i ⟨default, true⟩) i

/-- The value of `local()` for thread `i`. -/
def localVal (s : State T) (i : Nat) : T :=
  ((local_get s i).slots i).data

/-- `split::remove_thread`: unlink the slot; the payload is simply dropped
(no buffer in the Discard policy). -/
def remove_thread (s : State T) (i : Nat) : State T :=
  { s with head := s.head.erase i }

/-- `thread_data::~thread_data` for `tls::split`: unlink if owned.  The
thread-local slot dies with the thread; the destroyed slot is modelled as an
unowned default slot. -/
def thread_exit (s : State T) (i : Nat) : State T :=
  if (s.slots i).owner then
    { head := (remove_thread s i).head,
      slots := fun j => if j = i then ⟨default, false⟩ else s.slots j }
  else s

/-- `split::reset()`: every registered owned slot is detached
(`thread_data::remove`), the list is emptied. -/
def reset (s : State T) : State T :=
  { head := [],
    slots := fun j =>
      if j ∈ s.head ∧ (s.slots j).owner = true then ⟨default, false⟩ else s.slots j }

/-- The payloads visited by `split::for_each`: every registered thread's
payload in list order. -/
def visit_list (s : State T) : List T :=
  s.head.map (fun i => (s.slots i).data)

/-- Structural invariant of a split instance. -/
def WF (s : State T) : Prop :=
  s.head.Nodup ∧ ∀ i, (s.slots i).owner = true ↔ i ∈ s.head

end Split

/-! ## tls::splitter (include/tls/splitter.h)

The enumerate-live variant: the registered slots are visible through
`begin()`/`end()` iteration.  `remove_thread` (run from the thread-exit
destructor) unlinks the dying thread's slot from the list; unlike `collect`
it does not move or reset the payload (`// Remove the instance_access. The
data itself is preserved`). -/

namespace Splitter

/-- One `instance_access` record of `tls::splitter`. -/
structure Slot (T : Type) where
  data : T
  owner : Bool

/-- The state of one `tls::splitter` instance plus all thread-local slots. -/
structure State (T : Type) where
  head : List Nat
  slots : Nat → Slot T

variable {T : Type} [Inhabited T]

/-- Fresh program state. -/
def initState : State T :=
  ⟨[], fun _ => ⟨default, false⟩⟩

/-- Replace thread `i`'s slot. -/
def setSlot (s : State T) (i : Nat) (sl : Slot T) : State T :=
  { s with slots := fun j => if j = i then sl else s.slots j }

/-- `splitter::init_thread`: link the slot at the head of the list. -/
def init_thread (s : State T) (i : Nat) : State T :=
  { s with head := i :: s.head }

/-- `instance_access::get` as called from `splitter::local()`. -/
def local_get (s : State T) (i : Nat) : State T :=
  if (s.slots i).owner then s
  else init_thread (setSlot s i ⟨default, true⟩) i

/-- The value of `local()` for thread `i`. -/
def localVal (s : State T) (i : Nat) : T :=
  ((local_get s i).slots i).data

/-- `splitter::remove_thread`: if the list is empty, do nothing; otherwise
unlink the slot.  The slot's payload is not touched. -/
def remove_thread (s : State T) (i : Nat) : State T :=
  if s.head = [] then s else { s with head := s.head.erase i }

/-- `instance_access::~instance_access`: when the slot is owned, the dying
thread calls `remove_thread` on its owner. -/
def thread_exit (s : State T) (i : Nat) : State T :=
  if (s.slots i).owner then remove_thread s i else s

/-- `splitter::clear()`: every registered owned slot is detached
(`instance_access::remove`: payload and owner cleared), the list is
emptied.  Also run by the destructor. -/
def clear (s : State T) : State T :=
  { head := [],
    slots := fun j =>
      if j ∈ s.head ∧ (s.slots j).owner = true then ⟨default, false⟩ else s.slots j }

/-- The payloads enumerated by `begin()`/`end()` iteration, in list order. -/
def enumerate (s : State T) : List T :=
  s.head.map (fun i => (s.slots i).data)

/-- Structural invariant of a splitter instance: no duplicate links and
every linked slot is owned.  (A dead thread's slot may keep `owner` set in
the model, matching the source where `remove_thread` never clears it.) -/
def WF (s : State T) : Prop :=
  s.head.Nodup ∧ ∀ i ∈ s.head, (s.slots i).owner = true

end Splitter

/-- A concrete splitter state with threads 1 and 0 registered, holding 9 and
7 (used to instantiate general theorems at a specific input). -/
def splitterTwo : Splitter.State Int :=
  ⟨[1, 0], fun j => if j = 0 then ⟨7, true⟩ else if j = 1 then ⟨9, true⟩ else ⟨0, false⟩⟩

/-! ## tls::replicate (include/tls/replicate.h), one instance

One writer publishes through `write`; each reader keeps a thread-local
cached copy refreshed only when its `invalidated` flag is set. -/

namespace Replicate

/-- One `thread_data` record of `tls::replicate`: the cached copy, whether
`replicator` points at the (single, modelled) instance, and the staleness
flag. -/
structure Slot (T : Type) where
  data_copy : T
  registered : Bool
  invalidated : Bool

/-- The state of one `tls::replicate` instance plus all thread-local reader
slots: the central `data`, the reader list `head`, the per-thread slots. -/
structure State (T : Type) where
  data : T
  head : List Nat
  slots : Nat → Slot T

variable {T : Type} [Inhabited T]

/-- State right after `replicate{t}`: central value `t`, no registered
reader; a fresh `thread_data` is `{data_copy{}, replicator{nullptr},
invalidated{true}}`. -/
def initState (t : T) : State T :=
  ⟨t, [], fun _ => ⟨default, false, true⟩⟩

/-- `replicate::init_thread`: take ownership of the slot, copy the central
value, clear the staleness flag, link the slot at the head. -/
def init_thread (s : State T) (i : Nat) : State T :=
  { s with
    head := i :: s.head,
    slots := fun j => if j = i then ⟨s.data, true, false⟩ else s.slots j }

/-- `thread_data::maybe_update_data`: first access registers and copies the
central value; a stale registered reader refreshes its copy under the
shared lock; a fresh reader does nothing. -/
def readStep (s : State T) (i : Nat) : State T :=
  if (s.slots i).registered then
    if (s.slots i).invalidated then
      { s with slots := fun j => if j = i then ⟨s.data, true, false⟩ else s.slots j }
    else s
  else init_thread s i

/-- The value returned by `replicate::read()` on thread `i`: the slot's
cached copy after `maybe_update_data` ran. -/
def readVal (s : State T) (i : Nat) : T :=
  ((readStep s i).slots i).data_copy

/-- A sequence of `read()` calls by the given threads. -/
def runReads (s : State T) (rs : List Nat) : State T :=
  rs.foldl readStep s

/-- `replicate::write(v)`: under the unique lock, replace the central value
and set every registered reader's staleness flag. -/
def write (s : State T) (v : T) : State T :=
  { s with
    data := v,
    slots := fun j =>
      if j ∈ s.head then ⟨(s.slots j).data_copy, (s.slots j).registered, true⟩
      else s.slots j }

/-- `thread_data::~thread_data`: a dying registered reader unlinks itself;
the destroyed slot is modelled as a fresh unregistered slot. -/
def thread_exit (s : State T) (i : Nat) : State T :=
  if (s.slots i).registered then
    { s with
      head := s.head.erase i,
      slots := fun j => if j = i then ⟨default, false, true⟩ else s.slots j }
  else s

/-- `thread_data::read(repl, f)`: run `maybe_update_data`, then hand the
(const) cached copy to the user callback; the callback's result — success
or failure — is returned unchanged, and the refresh has fully completed
before the callback runs (the shared lock taken inside `maybe_update_data`
is already released). -/
def read_fn {ε β : Type} (s : State T) (i : Nat) (f : T → Except ε β) :
    Except ε β × State T :=
  (f (readVal s i), readStep s i)

/-- Structural invariant of a replicate instance. -/
def WF (s : State T) : Prop :=
  s.head.Nodup ∧ ∀ i, (s.slots i).registered = true ↔ i ∈ s.head

/-- Every registered reader's cached copy equals the central value, which is
`t`.  Holds as long as no `write` has happened. -/
def Synced (s : State T) (t : T) : Prop :=
  s.data = t ∧ ∀ i, (s.slots i).registered = true → (s.slots i).data_copy = t

end Replicate

/-! ## tls::replicate, two instances of the same specialization

In the source, `head` and `mtx` are `inline static` members and `local()`
returns a single `thread_local thread_data` per template specialization, so
two runtime `replicate<T>` instances share both the reader list and each
thread's reader slot; only the central `data` member is per-instance.  This
model has two instances `A` and `B` of the same specialization. -/

namespace Replicate2

/-- Which of the two modelled `replicate<T>` instances. -/
inductive Inst where
  | A
  | B
deriving DecidableEq

/-- The shared `thread_local thread_data` of one thread: the cached copy,
the instance its `replicator` field points at (if any), the staleness
flag. -/
structure Slot (T : Type) where
  data_copy : T
  replicator : Option Inst
  invalidated : Bool

/-- Two live `replicate<T>` instances of the same specialization: each has
its own central `data`, but the reader list and the per-thread slots are
shared (static storage). -/
structure State (T : Type) where
  dataA : T
  dataB : T
  head : List Nat
  slots : Nat → Slot T

variable {T : Type} [Inhabited T]

/-- The central `data` member of the given instance. -/
def centralData (s : State T) : Inst → T
  | .A => s.dataA
  | .B => s.dataB

/-- State right after constructing `A` with `a` and `B` with `b`, before any
thread has read. -/
def initState (a b : T) : State T :=
  ⟨a, b, [], fun _ => ⟨default, none, true⟩⟩

/-- `replicate::init_thread` run by instance `x`: the shared slot now points
at `x` and caches `x`'s central value. -/
def init_thread (s : State T) (i : Nat) (x : Inst) : State T :=
  { s with
    head := i :: s.head,
    slots := fun j => if j = i then ⟨centralData s x, some x, false⟩ else s.slots j }

/-- `thread_data::maybe_update_data` as run by `x.read()` on thread `i`:
an unowned slot registers with `x`; a stale slot refreshes from the
instance its own `replicator` field points at — not from `x`. -/
def readStep (s : State T) (i : Nat) (x : Inst) : State T :=
  match (s.slots i).replicator with
  | none => init_thread s i x
  | some own =>
    if (s.slots i).invalidated then
      { s with slots := fun j => if j = i then ⟨centralData s own, some own, false⟩ else s.slots j }
    else s

/-- The value `x.read()` returns on thread `i`. -/
def readVal (s : State T) (i : Nat) (x : Inst) : T :=
  ((readStep s i x).slots i).data_copy

/-- `x.write(v)`: replace `x`'s central value and set the staleness flag of
every slot in the shared reader list — including slots owned by the other
instance. -/
def write (s : State T) (v : T) (x : Inst) : State T :=
  { s with
    dataA := if x = .A then v else s.dataA,
    dataB := if x = .B then v else s.dataB,
    slots := fun j =>
      if j ∈ s.head then ⟨(s.slots j).data_copy, (s.slots j).replicator, true⟩
      else s.slots j }

end Replicate2

/-! ## tls::cache (include/tls/cache.h)

A fixed-capacity memoization cache over one cache line: linear scan, insert
at the front, evict the last entry.  `sizeof(Key)`, `sizeof(Value)` and the
`cache_line` extent are modelled as explicit `Nat` parameters. -/

namespace Cache

/-- `num_entries = cache_line / (sizeof(Key) + sizeof(Value))`. -/
def num_entries (keySize valSize cacheLine : Nat) : Nat :=
  cacheLine / (keySize + valSize)

/-- `cache::max_entries()`: the number of key/value pairs that can be
cached. -/
def max_entries (keySize valSize cacheLine : Nat) : Nat :=
  num_entries keySize valSize cacheLine

/-- The two member arrays `Key keys[num_entries]` and
`Value values[num_entries]`, as lists of that length. -/
structure State (Key Value : Type) where
  keys : List Key
  values : List Value

variable {Key Value : Type} [DecidableEq Key] [Inhabited Value]

/-- `cache::reset()` / the constructor: every key set to `empty_slot`,
every value default-initialized. -/
def initState (n : Nat) (eSlot : Key) : State Key Value :=
  ⟨List.replicate n eSlot, List.replicate n default⟩

/-- `cache::find_index`: the index of the first matching key, or the array
length (i.e. `num_entries`) when the key is absent — `std::find` then
`std::distance`. -/
def find_index (s : State Key Value) (k : Key) : Nat :=
  s.keys.indexOf k

/-- `cache::insert_val`: shift all but the last pair one step toward the
back (evicting the last pair) and put the new pair at the front. -/
def insert_val (s : State Key Value) (k : Key) (v : Value) : State Key Value :=
  ⟨k :: s.keys.dropLast, v :: s.values.dropLast⟩

/-- `cache::get_or(k, or_fn)`: on a hit return the stored value, leaving
the cache unchanged and never calling `or_fn`; on a miss insert
`or_fn(k)` at the front and return `values[0]`.  Returns the value and the
new cache state; `n` is `num_entries`. -/
def get_or (s : State Key Value) (n : Nat) (k : Key) (fn : Key → Value) :
    Value × State Key Value :=
  let idx := find_index s k
  if idx < n then (s.values.getD idx default, s)
  else
    let s' := insert_val s k (fn k)
    (s'.values.getD 0 default, s')

end Cache

/-! ## Fallible callbacks (for_each(fn) / read(fn)) -/

/-- How a traversal with a user callback ends, as observed by the caller:
normal completion, an exception propagated to the caller, or program
termination (`std::terminate`). -/
inductive Outcome (ε : Type) where
  | completed
  | raised (e : ε)
  | terminated
deriving DecidableEq

/-- Apply a fallible callback to each element in order, stopping at the
first failure, as a `for_each` body does. -/
def runCallback {T ε : Type} (f : T → Except ε Unit) : List T → Except ε Unit
  | [] => .ok ()
  | x :: xs =>
    match f x with
    | .ok _ => runCallback f xs
    | .error e => .error e

/-- Running a fallible body inside a `noexcept` function: a raised exception
never escapes, the program is terminated instead. -/
def noexceptRun {ε : Type} : Except ε Unit → Outcome ε
  | .ok _ => .completed
  | .error _ => .terminated

namespace Collect

variable {T : Type} [Inhabited T]

/-- `collect::for_each(fn)` with a fallible callback: the whole traversal
body is the `noexcept` lambda `for_each_impl`, so a callback failure cannot
propagate out of it. -/
def for_each_outcome {ε : Type} (s : State T) (f : T → Except ε Unit) : Outcome ε :=
  noexceptRun (runCallback f (visit_list s))

end Collect

namespace Split

variable {T : Type} [Inhabited T]

/-- `split::for_each(fn)` with a fallible callback: the traversal body is
the `noexcept` lambda `for_each_impl`, so a callback failure cannot
propagate out of it even though `for_each` itself is not `noexcept`. -/
def for_each_outcome {ε : Type} (s : State T) (f : T → Except ε Unit) : Outcome ε :=
  noexceptRun (runCallback f (visit_list s))

end Split

/-! ## Theorems -/

namespace Collect

variable {T : Type} [Inhabited T]

theorem WF_initState : WF (initState : State T) := by
  constructor
  · exact List.nodup_nil
  · intro i
    simp [initState]

theorem WF_local_get {s : State T} (h : WF s) (i : Nat) : WF (local_get s i) := by
  obtain ⟨hnd, hown⟩ := h
  unfold local_get
  by_cases hc : (s.slots i).owner
  · simp [hc]
    exact ⟨hnd, hown⟩
  · simp [hc, init_thread, setSlot]
    constructor
    · refine List.nodup_cons.mpr ⟨?_, hnd⟩
      intro hmem
      exact hc ((hown i).mpr hmem)
    · intro j
      by_cases hji : j = i <;> simp [hji, hown j]

theorem WF_local_mod {s : State T} (h : WF s) (i : Nat) (f : T → T) :
    WF (local_mod s i f) := by
  obtain ⟨hnd, hown⟩ := WF_local_get h i
  unfold local_mod setSlot
  refine ⟨hnd, ?_⟩
  intro j
  by_cases hji : j = i <;> simp [hji, hown j]
  · have := hown i
    simpa using this

theorem WF_thread_exit {s : State T} (h : WF s) (i : Nat) : WF (thread_exit s i) := by
  obtain ⟨hnd, hown⟩ := h
  unfold thread_exit remove_thread
  by_cases hc : (s.slots i).owner
  · simp [hc]
    constructor
    · exact hnd.erase i
    · intro j
      by_cases hji : j = i
      · subst hji
        simp [hnd.mem_erase_iff]
      · simp [hji, hown j, hnd.mem_erase_iff]
  · simp [hc]
    exact ⟨hnd, hown⟩

theorem WF_step {s : State T} (h : WF s) (e : Ev T) : WF (step s e) := by
  cases e with
  | mod i f => exact WF_local_mod h i f
  | exit i => exact WF_thread_exit h i

theorem WF_run {s : State T} (h : WF s) (es : List (Ev T)) : WF (run s es) := by
  induction es generalizing s with
  | nil => exact h
  | cons e es ih => exact ih (WF_step h e)

theorem WF_run_init (es : List (Ev T)) : WF (run (initState : State T) es) :=
  WF_run WF_initState es

theorem WF_gatherState {s : State T} (h : WF s) : WF (gatherState s) := by
  obtain ⟨hnd, hown⟩ := h
  refine ⟨hnd, ?_⟩
  intro j
  unfold gatherState
  by_cases hj : j ∈ s.head <;> simp [hj, hown j]

theorem run_append (s : State T) (a b : List (Ev T)) :
    run s (a ++ b) = run (run s a) b :=
  List.foldl_append ..

theorem run_cons (s : State T) (e : Ev T) (es : List (Ev T)) :
    run s (e :: es) = run (step s e) es :=
  rfl

theorem local_mod_not_owned {s : State T} {i : Nat}
    (h : (s.slots i).owner = false) (f : T → T) :
    (local_mod s i f).head = i :: s.head ∧ (local_mod s i f).buffer = s.buffer ∧
    (local_mod s i f).slots i = ⟨f default, true⟩ ∧
    ∀ j, j ≠ i → (local_mod s i f).slots j = s.slots j := by
  unfold local_mod local_get init_thread setSlot
  refine ⟨by simp [h], by simp [h], by simp [h], ?_⟩
  intro j hji
  simp [h, hji]

theorem local_mod_owned {s : State T} {i : Nat}
    (h : (s.slots i).owner = true) (f : T → T) :
    (local_mod s i f).head = s.head ∧ (local_mod s i f).buffer = s.buffer ∧
    (local_mod s i f).slots i = ⟨f (s.slots i).data, true⟩ ∧
    ∀ j, j ≠ i → (local_mod s i f).slots j = s.slots j := by
  unfold local_mod local_get init_thread setSlot
  refine ⟨by simp [h], by simp [h], by simp [h], ?_⟩
  intro j hji
  simp [h, hji]

theorem adds_phase (ps : List (Nat × Int)) (s : State Int) (h : WF s)
    (hfresh : ∀ p ∈ ps, (s.slots p.1).owner = false)
    (hnd : (ps.map Prod.fst).Nodup) :
    WF (run s (ps.map addEv))
    ∧ List.Perm (gatherResult (run s (ps.map addEv))) (gatherResult s ++ ps.map Prod.snd)
    ∧ (∀ j, j ∉ ps.map Prod.fst → (run s (ps.map addEv)).slots j = s.slots j) := by
  induction ps generalizing s with
  | nil =>
    exact ⟨h, by simp [run], fun j _ => rfl⟩
  | cons p ps ih =>
    have hfp : (s.slots p.1).owner = false := hfresh p (by simp)
    have hstep : step s (addEv p) = local_mod s p.1 (fun x => x + p.2) := rfl
    obtain ⟨hh, hb, hsi, hsj⟩ := local_mod_not_owned hfp (fun x => x + p.2)
    have hp1 : p.1 ∉ ps.map Prod.fst := (List.nodup_cons.mp hnd).1
    have hndps : (ps.map Prod.fst).Nodup := (List.nodup_cons.mp hnd).2
    have hWF1 : WF (local_mod s p.1 (fun x => x + p.2)) := WF_local_mod h p.1 _
    have hfresh1 : ∀ q ∈ ps, ((local_mod s p.1 (fun x => x + p.2)).slots q.1).owner = false := by
      intro q hq
      have hne : q.1 ≠ p.1 := by
        intro he
        exact hp1 (he ▸ List.mem_map_of_mem Prod.fst hq)
      rw [hsj q.1 hne]
      exact hfresh q (by simp [hq])
    obtain ⟨W, P, U⟩ := ih (local_mod s p.1 (fun x => x + p.2)) hWF1 hfresh1 hndps
    have hmemp : p.1 ∉ s.head := fun hm => by simp [(h.2 p.1).mpr hm] at hfp
    have hmap : s.head.map (fun j => ((local_mod s p.1 (fun x => x + p.2)).slots j).data)
        = s.head.map (fun j => (s.slots j).data) := by
      refine List.map_congr_left ?_
      intro j hj
      have : j ≠ p.1 := fun he => hmemp (he ▸ hj)
      rw [hsj j this]
    have hg1 : gatherResult (local_mod s p.1 (fun x => x + p.2))
        = s.buffer ++ (((default : Int) + p.2) :: s.head.map (fun j => (s.slots j).data)) := by
      unfold gatherResult
      rw [hh, hb, List.map_cons, hsi, hmap]
    refine ⟨?_, ?_, ?_⟩
    · rw [List.map_cons, run_cons, hstep]
      exact W
    · rw [List.map_cons, run_cons, hstep]
      refine P.trans ?_
      rw [hg1]
      have hz : (default : Int) + p.2 = p.2 := by
        rw [show (default : Int) = 0 from rfl, zero_add]
      rw [hz]
      have e1 : (s.buffer ++ p.2 :: s.head.map (fun j => (s.slots j).data)) ++ ps.map Prod.snd
          = s.buffer ++ (p.2 :: (s.head.map (fun j => (s.slots j).data) ++ ps.map Prod.snd)) := by
        simp [List.append_assoc]
      have e2 : gatherResult s ++ (p :: ps).map Prod.snd
          = s.buffer ++ (s.head.map (fun j => (s.slots j).data) ++ p.2 :: ps.map Prod.snd) := by
        unfold gatherResult
        simp [List.append_assoc]
      rw [e1, e2]
      exact (List.perm_middle.symm).append_left s.buffer
    · intro j hj
      have hj1 : j ∉ ps.map Prod.fst := fun hm => hj (by simp [List.map_cons]; right; simpa using hm)
      have hjp : j ≠ p.1 := fun he => hj (by simp [List.map_cons, he])
      rw [List.map_cons, run_cons, hstep, U j hj1, hsj j hjp]

theorem exits_phase (es : List Nat) (s : State T) (h : WF s) :
    WF (run s (es.map Ev.exit))
    ∧ List.Perm (gatherResult (run s (es.map Ev.exit))) (gatherResult s) := by
  induction es generalizing s with
  | nil => exact ⟨h, List.Perm.refl _⟩
  | cons i es ih =>
    rw [List.map_cons, run_cons]
    have hstep : step s (Ev.exit i) = thread_exit s i := rfl
    rw [hstep]
    by_cases hc : (s.slots i).owner = true
    · have hmem : i ∈ s.head := (h.2 i).mp hc
      have hWF1 : WF (thread_exit s i) := WF_thread_exit h i
      obtain ⟨W, P⟩ := ih (thread_exit s i) hWF1
      refine ⟨W, P.trans ?_⟩
      unfold thread_exit remove_thread
      simp only [hc, if_pos]
      unfold gatherResult
      have hmap : (s.head.erase i).map
            (fun j => ((if j = i then (⟨default, false⟩ : Slot T) else s.slots j)).data)
          = (s.head.erase i).map (fun j => (s.slots j).data) := by
        refine List.map_congr_left ?_
        intro j hj
        have : j ≠ i := (h.1.mem_erase_iff.mp hj).1
        simp [this]
      simp only []
      rw [hmap]
      have e1 : (s.buffer ++ [(s.slots i).data]) ++ (s.head.erase i).map (fun j => (s.slots j).data)
          = s.buffer ++ ((s.slots i).data :: (s.head.erase i).map (fun j => (s.slots j).data)) := by
        simp [List.append_assoc]
      rw [e1]
      refine List.Perm.append_left s.buffer ?_
      have hperm : List.Perm s.head (i :: s.head.erase i) := List.perm_cons_erase hmem
      have := hperm.map (fun j => (s.slots j).data)
      exact this.symm
    · have hne : thread_exit s i = s := by
        unfold thread_exit
        simp [hc]
      rw [hne]
      exact ih s h

theorem allDefault_gatherState (s : State T) : AllDefault (gatherState s) := by
  constructor
  · intro x hx
    simp [gatherState] at hx
  · intro i hi
    have hi' : i ∈ s.head := hi
    simp [gatherState, hi']

theorem allDefault_exits (es : List Nat) (s : State T) (h : WF s) (hz : AllDefault s) :
    AllDefault (run s (es.map Ev.exit)) := by
  induction es generalizing s with
  | nil => exact hz
  | cons i es ih =>
    rw [List.map_cons, run_cons]
    have hstep : step s (Ev.exit i) = thread_exit s i := rfl
    rw [hstep]
    refine ih (thread_exit s i) (WF_thread_exit h i) ?_
    unfold thread_exit remove_thread
    by_cases hc : (s.slots i).owner = true
    · have hmem : i ∈ s.head := (h.2 i).mp hc
      simp only [hc, if_pos]
      constructor
      · intro x hx
        rcases List.mem_append.mp hx with hx | hx
        · exact hz.1 x hx
        · rw [List.mem_singleton.mp hx]
          exact hz.2 i hmem
      · intro j hj
        have hjh : j ∈ s.head := List.mem_of_mem_erase hj
        by_cases hji : j = i <;> simp [hji, hz.2 j hjh]
    · simp [hc]
      exact hz

theorem gatherResult_allDefault {s : State T} (hz : AllDefault s) :
    ∀ x ∈ gatherResult s, x = default := by
  intro x hx
  rcases List.mem_append.mp hx with hx | hx
  · exact hz.1 x hx
  · obtain ⟨i, hi, he⟩ := List.mem_map.mp hx
    rw [← he]
    exact hz.2 i hi

end Collect

namespace Collect

variable {T : Type} [Inhabited T]

theorem localVal_not_owned {s : State T} {i : Nat} (h : (s.slots i).owner = false) :
    localVal s i = default ∧ i ∈ (local_get s i).head := by
  simp [localVal, local_get, init_thread, setSlot, h]

theorem reset_owner {s : State T} (h : WF s) (i : Nat) :
    ((reset s).slots i).owner = false := by
  unfold reset
  by_cases hio : i ∈ s.head ∧ (s.slots i).owner = true
  · simp [hio]
  · simp only [hio, if_false]
    rcases Bool.eq_false_or_eq_true (s.slots i).owner with hb | hb
    · exact absurd ⟨(h.2 i).mp hb, hb⟩ hio
    · exact hb

theorem local_get_idem (s : State T) (i : Nat) :
    local_get (local_get s i) i = local_get s i := by
  unfold local_get init_thread setSlot
  by_cases hc : (s.slots i).owner = true
  · simp [hc]
  · simp [hc]

theorem local_get_count {s : State T} (h : WF s) (i : Nat) :
    (local_get s i).head.count i = 1 := by
  unfold local_get init_thread setSlot
  by_cases hc : (s.slots i).owner = true
  · simp only [hc, if_true]
    exact List.count_eq_one_of_mem h.1 ((h.2 i).mp hc)
  · have hnm : i ∉ s.head := fun hm => by simp [(h.2 i).mpr hm] at hc
    simp only [hc, if_false, Bool.false_eq_true, List.count_cons_self]
    rw [List.count_eq_zero_of_not_mem hnm]

end Collect

namespace Split

variable {T : Type} [Inhabited T]

theorem WF_initState_split : WF (initState : State T) := by
  constructor
  · exact List.nodup_nil
  · intro i
    simp [initState]

theorem localVal_not_owned_split {s : State T} {i : Nat} (h : (s.slots i).owner = false) :
    localVal s i = default ∧ i ∈ (local_get s i).head := by
  simp [localVal, local_get, init_thread, setSlot, h]

theorem reset_owner_split {s : State T} (h : WF s) (i : Nat) :
    ((reset s).slots i).owner = false := by
  unfold reset
  by_cases hio : i ∈ s.head ∧ (s.slots i).owner = true
  · simp [hio]
  · simp only [hio, if_false]
    rcases Bool.eq_false_or_eq_true (s.slots i).owner with hb | hb
    · exact absurd ⟨(h.2 i).mp hb, hb⟩ hio
    · exact hb

theorem local_get_idem_split (s : State T) (i : Nat) :
    local_get (local_get s i) i = local_get s i := by
  unfold local_get init_thread setSlot
  by_cases hc : (s.slots i).owner = true
  · simp [hc]
  · simp [hc]

theorem local_get_count_split {s : State T} (h : WF s) (i : Nat) :
    (local_get s i).head.count i = 1 := by
  unfold local_get init_thread setSlot
  by_cases hc : (s.slots i).owner = true
  · simp only [hc, if_true]
    exact List.count_eq_one_of_mem h.1 ((h.2 i).mp hc)
  · have hnm : i ∉ s.head := fun hm => by simp [(h.2 i).mpr hm] at hc
    simp only [hc, if_false, Bool.false_eq_true, List.count_cons_self]
    rw [List.count_eq_zero_of_not_mem hnm]

end Split

namespace Splitter

variable {T : Type} [Inhabited T]

theorem localVal_not_owned_splitter {s : State T} {i : Nat} (h : (s.slots i).owner = false) :
    localVal s i = default ∧ i ∈ (local_get s i).head := by
  simp [localVal, local_get, init_thread, setSlot, h]

theorem clear_owner {s : State T} (i : Nat)
    (hpi : (s.slots i).owner = true → i ∈ s.head) :
    ((clear s).slots i).owner = false := by
  unfold clear
  by_cases hio : i ∈ s.head ∧ (s.slots i).owner = true
  · simp [hio]
  · simp only [hio, if_false]
    rcases Bool.eq_false_or_eq_true (s.slots i).owner with hb | hb
    · exact absurd ⟨hpi hb, hb⟩ hio
    · exact hb

end Splitter

/-! ### Claim C1 -/

/-- C1: for the Preserve-policy registry (`tls::collect`), in any serialized
run in which each of `N` threads obtains its cell via `local()` and adds its
fixed per-thread increment `inc i` (the adds in any order), any subset of
those threads then deregisters through the thread-exit path, and the
coordinator then calls `gather()`: the returned sequence is a permutation of
the `N` per-thread increments — each thread's contribution appears exactly
once — so its sum is the exact total of all increments; and no contribution
appears again: a later `gather()`, after any further thread exits, returns
only default (zero) values. -/
theorem collect_gather_exact (N : Nat) (inc : Nat → Int) (ps : List (Nat × Int))
    (exits later : List Nat)
    (hkeys : List.Perm (ps.map Prod.fst) (List.range N))
    (hvals : ∀ p ∈ ps, p.2 = inc p.1) :
    List.Perm
      (Collect.gatherResult
        (Collect.run Collect.initState (ps.map Collect.addEv ++ exits.map Collect.Ev.exit)))
      ((List.range N).map inc)
    ∧ (Collect.gatherResult
        (Collect.run Collect.initState (ps.map Collect.addEv ++ exits.map Collect.Ev.exit))).sum
      = ((List.range N).map inc).sum
    ∧ ∀ x ∈ Collect.gatherResult
        (Collect.run
          (Collect.gatherState
            (Collect.run Collect.initState (ps.map Collect.addEv ++ exits.map Collect.Ev.exit)))
          (later.map Collect.Ev.exit)), x = 0 := by
  have hnd : (ps.map Prod.fst).Nodup := hkeys.nodup_iff.mpr (List.nodup_range N)
  obtain ⟨W0, P0, _⟩ := Collect.adds_phase ps Collect.initState Collect.WF_initState
    (fun p _ => by simp [Collect.initState]) hnd
  obtain ⟨W1, P1⟩ := Collect.exits_phase exits
    (Collect.run Collect.initState (ps.map Collect.addEv)) W0
  have hinit : Collect.gatherResult (Collect.initState : Collect.State Int) = [] := by
    simp [Collect.gatherResult, Collect.initState]
  have hsnd : ps.map Prod.snd = (ps.map Prod.fst).map inc := by
    rw [List.map_map]
    exact List.map_congr_left hvals
  have hperm : List.Perm
      (Collect.gatherResult
        (Collect.run Collect.initState (ps.map Collect.addEv ++ exits.map Collect.Ev.exit)))
      ((List.range N).map inc) := by
    rw [Collect.run_append]
    refine P1.trans (P0.trans ?_)
    rw [hinit, List.nil_append, hsnd]
    exact hkeys.map inc
  refine ⟨hperm, hperm.sum_eq, ?_⟩
  intro x hx
  have W1' : Collect.WF
      (Collect.run Collect.initState (ps.map Collect.addEv ++ exits.map Collect.Ev.exit)) := by
    rw [Collect.run_append]
    exact W1
  have hz := Collect.allDefault_exits later _ (Collect.WF_gatherState W1')
    (Collect.allDefault_gatherState _)
  have := Collect.gatherResult_allDefault hz x hx
  rw [this]
  rfl

/-- Witness for C1 at a concrete run: two threads with increments 2 and 1
(thread 1 acts first), thread 0 dies before the gather, thread 1 dies after
it. -/
theorem collect_gather_exact_witness :
    List.Perm
      (Collect.gatherResult
        (Collect.run Collect.initState
          ([((1 : Nat), (2 : Int)), (0, 1)].map Collect.addEv ++ [0].map Collect.Ev.exit)))
      ((List.range 2).map (fun i => (i : Int) + 1))
    ∧ (Collect.gatherResult
        (Collect.run Collect.initState
          ([((1 : Nat), (2 : Int)), (0, 1)].map Collect.addEv ++ [0].map Collect.Ev.exit))).sum
      = ((List.range 2).map (fun i => (i : Int) + 1)).sum
    ∧ ∀ x ∈ Collect.gatherResult
        (Collect.run
          (Collect.gatherState
            (Collect.run Collect.initState
              ([((1 : Nat), (2 : Int)), (0, 1)].map Collect.addEv ++ [0].map Collect.Ev.exit)))
          ([1].map Collect.Ev.exit)), x = 0 :=
  collect_gather_exact 2 (fun i => (i : Int) + 1) [(1, 2), (0, 1)] [0] [1]
    (by decide) (by decide)

/-! ### Claim C2 -/

/-- C2 counterexample: one thread registers and contributes 5; after the
first `gather()` the thread is still linked, so the second immediate
`gather()` traverses it again and returns its (now default) payload — a
one-element sequence, not the empty sequence the claim requires. -/
theorem collect_second_gather_cex :
    Collect.gatherResult
      (Collect.gatherState
        (Collect.run Collect.initState [Collect.Ev.mod 0 (fun x => x + 5)]))
      ≠ ([] : List Int) := by
  decide

/-- C2 (amended): after `gather()` the thread list is unchanged and every
still-registered thread's cell holds the element type's default value; a
second immediate `gather()` (no intervening writes, registrations or
deregistrations) returns one default value per still-registered thread —
so it is empty exactly when no thread is registered, not in general. -/
theorem collect_second_gather {T : Type} [Inhabited T] (s : Collect.State T) :
    (Collect.gatherState s).head = s.head
    ∧ (∀ i ∈ s.head, ((Collect.gatherState s).slots i).data = default)
    ∧ Collect.gatherResult (Collect.gatherState s) = s.head.map (fun _ => (default : T)) := by
  refine ⟨rfl, ?_, ?_⟩
  · intro i hi
    simp [Collect.gatherState, hi]
  · unfold Collect.gatherResult Collect.gatherState
    simp only [List.nil_append]
    refine List.map_congr_left ?_
    intro i hi
    simp [hi]

/-! ### Claim C3 -/

/-- C3 counterexample: thread 0 registers with a `tls::splitter` (the
enumeration then visits its payload), then dies; `remove_thread`, called
from `instance_access::~instance_access`, unlinks the slot, so iteration no
longer visits the payload — the thread-exit path does remove the slot from
the enumerable list. -/
theorem splitter_exit_enumerated_cex :
    Splitter.enumerate (Splitter.local_get (Splitter.initState : Splitter.State Int) 0) = [0]
    ∧ Splitter.enumerate
        (Splitter.thread_exit (Splitter.local_get (Splitter.initState : Splitter.State Int) 0) 0)
      = [] := by
  constructor <;> decide

/-- C3 (amended): for `tls::splitter`, the thread-exit deregistration step
unlinks the dying thread's slot from the enumerable list (its payload is no
longer visited by iteration), while `remove_thread` itself leaves the
stored payload untouched; slots of other threads remain enumerated, and
`clear()` (also run by the splitter's destructor) empties the enumeration
entirely. -/
theorem splitter_exit_unlinks {T : Type} [Inhabited T] (s : Splitter.State T) (i : Nat)
    (h : Splitter.WF s) :
    i ∉ (Splitter.thread_exit s i).head
    ∧ ((Splitter.thread_exit s i).slots i).data = (s.slots i).data
    ∧ (∀ j ∈ s.head, j ≠ i → j ∈ (Splitter.thread_exit s i).head)
    ∧ (Splitter.clear s).head = [] := by
  unfold Splitter.thread_exit Splitter.remove_thread
  by_cases hc : (s.slots i).owner = true
  · by_cases hh : s.head = []
    · exact ⟨by simp [hc, hh], by simp [hc, hh], by simp [hh], rfl⟩
    · refine ⟨?_, by simp [hc, hh], ?_, rfl⟩
      · simp only [hc, if_true, hh, if_false]
        intro hmem
        exact ((h.1.mem_erase_iff.mp hmem).1) rfl
      · intro j hj hji
        simp only [hc, if_true, hh, if_false]
        exact h.1.mem_erase_iff.mpr ⟨hji, hj⟩
  · have hmem : i ∉ s.head := fun hm => hc (h.2 i hm)
    simp only [hc, if_false]
    exact ⟨hmem, rfl, fun j hj _ => hj, rfl⟩

/-- Witness for C3's amended statement on a concrete splitter state with
two registered threads. -/
theorem splitter_exit_unlinks_witness :
    0 ∉ (Splitter.thread_exit splitterTwo 0).head
    ∧ ((Splitter.thread_exit splitterTwo 0).slots 0).data = (splitterTwo.slots 0).data
    ∧ (∀ j ∈ splitterTwo.head, j ≠ 0 → j ∈ (Splitter.thread_exit splitterTwo 0).head)
    ∧ (Splitter.clear splitterTwo).head = [] :=
  splitter_exit_unlinks splitterTwo 0 ⟨by decide, by decide⟩

/-! ### Replicate lemmas -/

namespace Replicate

variable {T : Type} [Inhabited T]

theorem WF_initState_repl (t : T) : WF (initState t) := by
  constructor
  · exact List.nodup_nil
  · intro i
    simp [initState]

theorem synced_initState (t : T) : Synced (initState t) t := by
  constructor
  · rfl
  · intro i hi
    simp [initState] at hi

omit [Inhabited T] in
theorem readVal_of_synced {s : State T} {t : T} (h : Synced s t) (i : Nat) :
    readVal s i = t := by
  unfold readVal readStep init_thread
  by_cases hr : (s.slots i).registered = true
  · by_cases hinv : (s.slots i).invalidated = true
    · simp [hr, hinv, h.1]
    · simp [hr, hinv]
      exact h.2 i hr
  · simp [hr, h.1]

omit [Inhabited T] in
theorem synced_readStep {s : State T} {t : T} (h : Synced s t) (i : Nat) :
    Synced (readStep s i) t := by
  unfold readStep init_thread
  by_cases hr : (s.slots i).registered = true
  · by_cases hinv : (s.slots i).invalidated = true
    · simp only [hr, hinv, if_true]
      refine ⟨h.1, ?_⟩
      intro j
      by_cases hji : j = i <;> simp [hji, h.1]
      exact fun hj => h.2 j hj
    · simp [hr, hinv]
      exact h
  · simp only [hr, if_false, Bool.false_eq_true]
    refine ⟨h.1, ?_⟩
    intro j
    by_cases hji : j = i <;> simp [hji, h.1]
    exact fun hj => h.2 j hj

omit [Inhabited T] in
theorem synced_runReads {s : State T} {t : T} (h : Synced s t) (rs : List Nat) :
    Synced (runReads s rs) t := by
  induction rs generalizing s with
  | nil => exact h
  | cons i rs ih => exact ih (synced_readStep h i)

end Replicate

/-! ### Claim C4 -/

/-- C4: for `tls::replicate<T>`, a reader thread whose `read()` calls all
happen before any `write()` observes the value supplied at construction
(whatever reads other threads performed before it); and after a `write(v)`
completes, any reader's next `read()` — registered or first-time — returns
exactly `v`, the whole value. -/
theorem replicate_read_fresh_and_after_write (t v : Int) (rs : List Nat) (i j : Nat)
    (s : Replicate.State Int) (hWF : Replicate.WF s) :
    Replicate.readVal (Replicate.runReads (Replicate.initState t) rs) i = t
    ∧ Replicate.readVal (Replicate.write s v) j = v := by
  constructor
  · exact Replicate.readVal_of_synced
      (Replicate.synced_runReads (Replicate.synced_initState t) rs) i
  · unfold Replicate.readVal Replicate.readStep Replicate.init_thread Replicate.write
    by_cases hr : (s.slots j).registered = true
    · have hmem : j ∈ s.head := (hWF.2 j).mp hr
      simp [hmem, hr]
    · have hmem : j ∉ s.head := fun hm => hr ((hWF.2 j).mpr hm)
      simp [hmem, hr]

/-- Witness for C4: central value 3, three reads by two threads, then a
write of 9 observed by thread 0 on a state with thread 0 registered. -/
theorem replicate_read_fresh_and_after_write_witness :
    Replicate.readVal (Replicate.runReads (Replicate.initState (3 : Int)) [0, 1, 0]) 1 = 3
    ∧ Replicate.readVal
        (Replicate.write (Replicate.readStep (Replicate.initState (3 : Int)) 0) 9) 0 = 9 :=
  replicate_read_fresh_and_after_write 3 9 [0, 1, 0] 1 0
    (Replicate.readStep (Replicate.initState 3) 0)
    (by
      refine ⟨by decide, ?_⟩
      intro j
      by_cases hj : j = 0 <;>
        simp [Replicate.readStep, Replicate.init_thread, Replicate.initState, hj])

/-! ### Claim C5 -/

/-- C5 counterexample: instance `A` holds 1, instance `B` holds 2 (same
element type, same differentiator).  Thread 0 first reads through `A`; its
single shared `thread_local` slot binds to `A`.  A subsequent `read()`
through `B` returns 1 — `A`'s value — even though `B`'s central value is
still 2: the reader-side cache is not per-(thread, instance). -/
theorem replicate_per_instance_cache_cex :
    Replicate2.readVal (Replicate2.readStep (Replicate2.initState (1 : Int) 2) 0 .A) 0 .B = 1
    ∧ Replicate2.centralData
        (Replicate2.readStep (Replicate2.initState (1 : Int) 2) 0 .A) .B = 2 := by
  constructor <;> decide

/-- C5 (amended): in `tls::replicate` the reader list (`head`) and the
mutex are `inline static` and `local()` returns one `thread_local` record
per template specialization, so all instances of the same specialization
share each thread's reader slot.  The slot binds to whichever instance the
thread touches first, and `read()` through any other instance of that
specialization returns the bound instance's value, not the addressed
instance's; a `write` on the other instance invalidates the shared slot,
whose next refresh still copies from the bound instance. -/
theorem replicate_shared_slot (a b v : Int) (i : Nat) :
    Replicate2.readVal (Replicate2.readStep (Replicate2.initState a b) i .A) i .B = a
    ∧ Replicate2.readVal (Replicate2.readStep (Replicate2.initState a b) i .B) i .A = b
    ∧ Replicate2.readVal
        (Replicate2.write (Replicate2.readStep (Replicate2.initState a b) i .A) v .B) i .A = a := by
  refine ⟨?_, ?_, ?_⟩ <;>
    simp [Replicate2.readVal, Replicate2.readStep, Replicate2.init_thread,
      Replicate2.initState, Replicate2.centralData, Replicate2.write]

/-! ### Claim C6 -/

/-- C6 counterexample: a failing callback passed to `collect::for_each` (or
`split::for_each`) does not propagate to the caller: the traversal runs
inside a `noexcept` lambda, so the program is terminated instead.  Here the
registry holds one cell (value 7) and the callback raises error 0. -/
theorem for_each_noexcept_cex :
    Collect.for_each_outcome
        (Collect.run Collect.initState [Collect.Ev.mod 0 (fun x => x + (7 : Int))])
        (fun _ => Except.error (0 : Nat)) = Outcome.terminated
    ∧ Split.for_each_outcome (Split.local_get (Split.initState : Split.State Int) 0)
        (fun _ => Except.error (0 : Nat)) = Outcome.terminated
    ∧ Outcome.terminated ≠ Outcome.raised (0 : Nat) := by
  refine ⟨?_, ?_, by decide⟩ <;> decide

/-- C6 (amended): a failure of the callback given to `replicate::read(fn)`
propagates unmodified to the caller, and the refresh — including the scoped
shared lock taken inside `maybe_update_data` — has fully completed before
the callback runs, so the broadcast state is never left partially mutated;
but `collect::for_each` and `split::for_each` execute the traversal inside
`noexcept` lambdas, so a failing callback terminates the program and never
propagates to the caller. -/
theorem callback_failure {T ε β : Type} [Inhabited T]
    (sc : Collect.State T) (ss : Split.State T) (sr : Replicate.State T)
    (i : Nat) (e : ε) (f : T → Except ε Unit) (g : T → Except ε β)
    (hc : runCallback f (Collect.visit_list sc) = Except.error e)
    (hs : runCallback f (Split.visit_list ss) = Except.error e)
    (hg : g (Replicate.readVal sr i) = Except.error e) :
    Collect.for_each_outcome sc f = Outcome.terminated
    ∧ Split.for_each_outcome ss f = Outcome.terminated
    ∧ (∀ e2 : ε, Collect.for_each_outcome sc f ≠ Outcome.raised e2)
    ∧ (∀ e2 : ε, Split.for_each_outcome ss f ≠ Outcome.raised e2)
    ∧ (Replicate.read_fn sr i g).1 = Except.error e
    ∧ (Replicate.read_fn sr i g).2 = Replicate.readStep sr i := by
  have hnc : ∀ (r : Except ε Unit) (e2 : ε), noexceptRun r ≠ Outcome.raised e2 := by
    intro r e2
    cases r <;> simp [noexceptRun]
  refine ⟨?_, ?_, ?_, ?_, ?_, rfl⟩
  · unfold Collect.for_each_outcome
    rw [hc]
    rfl
  · unfold Split.for_each_outcome
    rw [hs]
    rfl
  · exact fun e2 => hnc _ e2
  · exact fun e2 => hnc _ e2
  · unfold Replicate.read_fn
    simp [hg]

/-- Witness for C6's amended statement: a collect and a split registry each
holding one cell with value 7, a replicate instance holding 3, and
callbacks that raise error 5. -/
theorem callback_failure_witness :
    Collect.for_each_outcome
        (Collect.run Collect.initState [Collect.Ev.mod 0 (fun x => x + (7 : Int))])
        (fun _ => Except.error (5 : Nat)) = Outcome.terminated
    ∧ Split.for_each_outcome (Split.local_get (Split.initState : Split.State Int) 0)
        (fun _ => Except.error (5 : Nat)) = Outcome.terminated
    ∧ (∀ e2 : Nat, Collect.for_each_outcome
        (Collect.run Collect.initState [Collect.Ev.mod 0 (fun x => x + (7 : Int))])
        (fun _ => Except.error (5 : Nat)) ≠ Outcome.raised e2)
    ∧ (∀ e2 : Nat, Split.for_each_outcome (Split.local_get (Split.initState : Split.State Int) 0)
        (fun _ => Except.error (5 : Nat)) ≠ Outcome.raised e2)
    ∧ (Replicate.read_fn (Replicate.initState (3 : Int)) 0
        (fun _ => (Except.error (5 : Nat) : Except Nat Unit))).1 = Except.error 5
    ∧ (Replicate.read_fn (Replicate.initState (3 : Int)) 0
        (fun _ => (Except.error (5 : Nat) : Except Nat Unit))).2
      = Replicate.readStep (Replicate.initState 3) 0 :=
  callback_failure
    (Collect.run Collect.initState [Collect.Ev.mod 0 (fun x => x + (7 : Int))])
    (Split.local_get (Split.initState : Split.State Int) 0)
    (Replicate.initState 3) 0 5
    (fun _ => Except.error 5) (fun _ => Except.error 5)
    rfl rfl rfl

/-! ### gather_flattened lemmas -/

/-- Moving a singleton from the middle of an append to the back is a
permutation. -/
theorem perm_shuffle {α : Type} (B D R : List α) (x : α) :
    List.Perm (B ++ ((D ++ [x]) ++ R)) ((B ++ (D ++ R)) ++ [x]) := by
  have e1 : (B ++ (D ++ R)) ++ [x] = B ++ ((D ++ R) ++ [x]) := by
    rw [List.append_assoc]
  rw [e1]
  refine List.Perm.append_left B ?_
  have e2 : (D ++ [x]) ++ R = D ++ ([x] ++ R) := by
    rw [List.append_assoc]
  have e3 : (D ++ R) ++ [x] = D ++ (R ++ [x]) := by
    rw [List.append_assoc]
  rw [e2, e3]
  exact List.Perm.append_left D (List.perm_append_singleton x R).symm

/-- Flattening the payload lists of all registered threads, after thread
`i`'s payload is singled out. -/
theorem flatten_map_perm {α : Type} (l : List Nat) (i : Nat) (hmem : i ∈ l)
    (hnd : l.Nodup) (f g : Nat → List α) (hfg : ∀ j ∈ l, j ≠ i → f j = g j) :
    List.Perm ((l.map f).flatten) (f i ++ ((l.erase i).map g).flatten) := by
  have h1 : List.Perm (l.map f) (f i :: (l.erase i).map f) :=
    (List.perm_cons_erase hmem).map f
  have h2 : (l.erase i).map f = (l.erase i).map g := by
    refine List.map_congr_left ?_
    intro j hj
    exact hfg j (List.mem_of_mem_erase hj) (hnd.mem_erase_iff.mp hj).1
  refine h1.flatten.trans ?_
  rw [List.flatten_cons, h2]

namespace Collect

variable {α : Type}

theorem flat_push (s : State (List α)) (i : Nat) (x : α) (h : WF s) :
    List.Perm (flatResult (local_mod s i (fun l => l ++ [x]))) (flatResult s ++ [x]) := by
  by_cases hc : (s.slots i).owner = true
  · obtain ⟨hh, hb, hsi, hsj⟩ := local_mod_owned hc (fun l => l ++ [x])
    have hmem : i ∈ s.head := (h.2 i).mp hc
    have hA := flatten_map_perm s.head i hmem h.1
      (fun j => ((local_mod s i (fun l => l ++ [x])).slots j).data)
      (fun j => (s.slots j).data) (fun j _ hji => congrArg Slot.data (hsj j hji))
    have hB := flatten_map_perm s.head i hmem h.1
      (fun j => (s.slots j).data) (fun j => (s.slots j).data) (fun j _ _ => rfl)
    simp only [hsi] at hA
    unfold flatResult
    rw [hh, hb]
    refine (hA.append_left s.buffer.flatten).trans ?_
    refine (perm_shuffle s.buffer.flatten (s.slots i).data
      (((s.head.erase i).map fun j => (s.slots j).data).flatten) x).trans ?_
    exact ((hB.append_left s.buffer.flatten).symm).append_right [x]
  · have hc' : (s.slots i).owner = false := by simpa using hc
    obtain ⟨hh, hb, hsi, hsj⟩ := local_mod_not_owned hc' (fun l => l ++ [x])
    have hmem : i ∉ s.head := fun hm => by simp [(h.2 i).mpr hm] at hc'
    have hmap : s.head.map (fun j => ((local_mod s i (fun l => l ++ [x])).slots j).data)
        = s.head.map (fun j => (s.slots j).data) := by
      refine List.map_congr_left ?_
      intro j hj
      exact congrArg Slot.data (hsj j (fun he => hmem (he ▸ hj)))
    unfold flatResult
    rw [hh, hb, List.map_cons, hmap]
    simp only [hsi, List.flatten_cons]
    exact perm_shuffle s.buffer.flatten []
      ((s.head.map fun j => (s.slots j).data).flatten) x

theorem flat_exit (s : State (List α)) (i : Nat) (h : WF s) :
    List.Perm (flatResult (thread_exit s i)) (flatResult s) := by
  by_cases hc : (s.slots i).owner = true
  · have hmem : i ∈ s.head := (h.2 i).mp hc
    have hstep : thread_exit s i = remove_thread s i := by
      unfold thread_exit
      simp [hc]
    have hmap : (s.head.erase i).map (fun j => ((remove_thread s i).slots j).data)
        = (s.head.erase i).map (fun j => (s.slots j).data) := by
      refine List.map_congr_left ?_
      intro j hj
      have hne : j ≠ i := (h.1.mem_erase_iff.mp hj).1
      unfold remove_thread
      simp [hne]
    have hflat : flatResult (remove_thread s i)
        = s.buffer.flatten
          ++ ((s.slots i).data ++ ((s.head.erase i).map (fun j => (s.slots j).data)).flatten) := by
      unfold flatResult
      rw [show (remove_thread s i).head = s.head.erase i from rfl,
        show (remove_thread s i).buffer = s.buffer ++ [(s.slots i).data] from rfl,
        hmap, List.flatten_append]
      simp [List.append_assoc]
    have hB := flatten_map_perm s.head i hmem h.1
      (fun j => (s.slots j).data) (fun j => (s.slots j).data) (fun j _ _ => rfl)
    rw [hstep, hflat]
    exact (hB.append_left s.buffer.flatten).symm
  · have hstep : thread_exit s i = s := by
      unfold thread_exit
      simp [hc]
    rw [hstep]

theorem push_exit_flat (es : List (PushEv α)) (s : State (List α)) (h : WF s) :
    WF (run s (es.map PushEv.toEv))
    ∧ List.Perm (flatResult (run s (es.map PushEv.toEv))) (flatResult s ++ pushedElems es) := by
  induction es generalizing s with
  | nil => exact ⟨h, by simp [run, pushedElems]⟩
  | cons e es ih =>
    cases e with
    | push i x =>
      have hstep : step s (PushEv.toEv (PushEv.push i x)) = local_mod s i (fun l => l ++ [x]) := rfl
      rw [List.map_cons, run_cons, hstep]
      obtain ⟨W, P⟩ := ih (local_mod s i (fun l => l ++ [x])) (WF_local_mod h i _)
      refine ⟨W, P.trans ?_⟩
      have hfp := flat_push s i x h
      refine (hfp.append_right (pushedElems es)).trans ?_
      rw [List.append_assoc]
      have : [x] ++ pushedElems es = pushedElems (PushEv.push i x :: es) := rfl
      rw [this]
    | exitEv i =>
      have hstep : step s (PushEv.toEv (PushEv.exitEv i)) = thread_exit s i := rfl
      rw [List.map_cons, run_cons, hstep]
      obtain ⟨W, P⟩ := ih (thread_exit s i) (WF_thread_exit h i)
      refine ⟨W, P.trans ?_⟩
      have : pushedElems (PushEv.exitEv i :: es) = pushedElems es := rfl
      rw [this]
      exact (flat_exit s i h).append_right (pushedElems es)

end Collect

/-! ### Claim C8 -/

/-- C8: for `tls::collect` with a sequence-valued payload, over any
serialized trace of per-thread `local().push_back(x)` events and thread
exits, `gather_flattened` appends to the sink exactly the elements of every
previously buffered sub-sequence and every live slot's sub-sequence: the
appended elements are a permutation of all pushed elements (each exactly
once), so the appended count equals the sum of per-thread push counts; and
afterwards the buffer is empty and every live slot's container is empty. -/
theorem collect_gather_flattened {α : Type} (es : List (Collect.PushEv α)) :
    List.Perm (Collect.flatResult (Collect.run Collect.initState (es.map Collect.PushEv.toEv)))
      (Collect.pushedElems es)
    ∧ (Collect.flatResult (Collect.run Collect.initState (es.map Collect.PushEv.toEv))).length
      = (Collect.pushedElems es).length
    ∧ (Collect.flatState (Collect.run Collect.initState (es.map Collect.PushEv.toEv))).buffer = []
    ∧ ∀ i ∈ (Collect.run Collect.initState (es.map Collect.PushEv.toEv)).head,
        ((Collect.flatState (Collect.run Collect.initState (es.map Collect.PushEv.toEv))).slots
          i).data = ([] : List α) := by
  obtain ⟨_, P⟩ := Collect.push_exit_flat es Collect.initState Collect.WF_initState
  have hinit : Collect.flatResult (Collect.initState : Collect.State (List α)) = [] := by
    simp [Collect.flatResult, Collect.initState]
  have hperm : List.Perm
      (Collect.flatResult (Collect.run Collect.initState (es.map Collect.PushEv.toEv)))
      (Collect.pushedElems es) := by
    refine P.trans ?_
    rw [hinit, List.nil_append]
  refine ⟨hperm, hperm.length_eq, rfl, ?_⟩
  intro i hi
  simp [Collect.flatState, hi]

/-! ### Claim C7 -/

/-- C7: for every policy variant (`split`, `collect`, `splitter`), a
thread's first `local()` call on a freshly constructed registry returns a
cell holding the element type's default value, and after `reset()` /
`clear()` the next `local()` call on any thread re-registers a fresh
default-valued cell.  (For `splitter` the thread is assumed alive, i.e. its
slot, if owned, is still linked.) -/
theorem local_default_fresh_and_after_reset {T : Type} [Inhabited T]
    (sc : Collect.State T) (ss : Split.State T) (sp : Splitter.State T) (i : Nat)
    (hc : Collect.WF sc) (hs : Split.WF ss)
    (hpi : (sp.slots i).owner = true → i ∈ sp.head) :
    (Collect.localVal (Collect.initState : Collect.State T) i = default
      ∧ i ∈ (Collect.local_get (Collect.initState : Collect.State T) i).head)
    ∧ (Split.localVal (Split.initState : Split.State T) i = default
      ∧ i ∈ (Split.local_get (Split.initState : Split.State T) i).head)
    ∧ (Splitter.localVal (Splitter.initState : Splitter.State T) i = default
      ∧ i ∈ (Splitter.local_get (Splitter.initState : Splitter.State T) i).head)
    ∧ (Collect.localVal (Collect.reset sc) i = default
      ∧ i ∈ (Collect.local_get (Collect.reset sc) i).head)
    ∧ (Split.localVal (Split.reset ss) i = default
      ∧ i ∈ (Split.local_get (Split.reset ss) i).head)
    ∧ (Splitter.localVal (Splitter.clear sp) i = default
      ∧ i ∈ (Splitter.local_get (Splitter.clear sp) i).head) := by
  refine ⟨?_, ?_, ?_, ?_, ?_, ?_⟩
  · exact Collect.localVal_not_owned (by simp [Collect.initState])
  · exact Split.localVal_not_owned_split (by simp [Split.initState])
  · exact Splitter.localVal_not_owned_splitter (by simp [Splitter.initState])
  · exact Collect.localVal_not_owned (Collect.reset_owner hc i)
  · exact Split.localVal_not_owned_split (Split.reset_owner_split hs i)
  · exact Splitter.localVal_not_owned_splitter (Splitter.clear_owner i hpi)

/-- Witness for C7: a collect registry where thread 0 contributed 3, a
fresh split registry, and the two-thread splitter state, observed by
thread 0. -/
theorem local_default_fresh_and_after_reset_witness :
    (Collect.localVal (Collect.initState : Collect.State Int) 0 = default
      ∧ 0 ∈ (Collect.local_get (Collect.initState : Collect.State Int) 0).head)
    ∧ (Split.localVal (Split.initState : Split.State Int) 0 = default
      ∧ 0 ∈ (Split.local_get (Split.initState : Split.State Int) 0).head)
    ∧ (Splitter.localVal (Splitter.initState : Splitter.State Int) 0 = default
      ∧ 0 ∈ (Splitter.local_get (Splitter.initState : Splitter.State Int) 0).head)
    ∧ (Collect.localVal
          (Collect.reset (Collect.run Collect.initState [Collect.Ev.mod 0 (fun x => x + (3 : Int))])) 0
        = default
      ∧ 0 ∈ (Collect.local_get
          (Collect.reset (Collect.run Collect.initState [Collect.Ev.mod 0 (fun x => x + (3 : Int))]))
          0).head)
    ∧ (Split.localVal (Split.reset (Split.initState : Split.State Int)) 0 = default
      ∧ 0 ∈ (Split.local_get (Split.reset (Split.initState : Split.State Int)) 0).head)
    ∧ (Splitter.localVal (Splitter.clear splitterTwo) 0 = default
      ∧ 0 ∈ (Splitter.local_get (Splitter.clear splitterTwo) 0).head) :=
  local_default_fresh_and_after_reset
    (Collect.run Collect.initState [Collect.Ev.mod 0 (fun x => x + (3 : Int))])
    (Split.initState : Split.State Int) splitterTwo 0
    (Collect.WF_run_init _) Split.WF_initState_split (by decide)

/-! ### Claim C9 -/

/-- C9: `local()` is idempotent per thread on one live registry instance:
the first call registers the thread's slot, linking it into the list
exactly once; a repeated call returns the very same state — it does not
register again and does not change the cell's stored value.  Shown for the
`collect` and `split` registries. -/
theorem local_idempotent {T : Type} [Inhabited T]
    (sc : Collect.State T) (ss : Split.State T) (i : Nat)
    (hc : Collect.WF sc) (hs : Split.WF ss) :
    Collect.local_get (Collect.local_get sc i) i = Collect.local_get sc i
    ∧ (Collect.local_get sc i).head.count i = 1
    ∧ Collect.localVal (Collect.local_get sc i) i = Collect.localVal sc i
    ∧ Split.local_get (Split.local_get ss i) i = Split.local_get ss i
    ∧ (Split.local_get ss i).head.count i = 1
    ∧ Split.localVal (Split.local_get ss i) i = Split.localVal ss i := by
  refine ⟨Collect.local_get_idem sc i, Collect.local_get_count hc i, ?_,
    Split.local_get_idem_split ss i, Split.local_get_count_split hs i, ?_⟩
  · unfold Collect.localVal
    rw [Collect.local_get_idem]
  · unfold Split.localVal
    rw [Split.local_get_idem_split]

/-- Witness for C9 on a collect registry where thread 0 contributed 3 and a
split registry where thread 0 is registered. -/
theorem local_idempotent_witness :
    Collect.local_get
        (Collect.local_get (Collect.run Collect.initState [Collect.Ev.mod 0 (fun x => x + (3 : Int))]) 0) 0
      = Collect.local_get (Collect.run Collect.initState [Collect.Ev.mod 0 (fun x => x + (3 : Int))]) 0
    ∧ (Collect.local_get (Collect.run Collect.initState [Collect.Ev.mod 0 (fun x => x + (3 : Int))])
        0).head.count 0 = 1
    ∧ Collect.localVal
        (Collect.local_get (Collect.run Collect.initState [Collect.Ev.mod 0 (fun x => x + (3 : Int))]) 0) 0
      = Collect.localVal (Collect.run Collect.initState [Collect.Ev.mod 0 (fun x => x + (3 : Int))]) 0
    ∧ Split.local_get (Split.local_get (Split.initState : Split.State Int) 0) 0
      = Split.local_get (Split.initState : Split.State Int) 0
    ∧ (Split.local_get (Split.initState : Split.State Int) 0).head.count 0 = 1
    ∧ Split.localVal (Split.local_get (Split.initState : Split.State Int) 0) 0
      = Split.localVal (Split.initState : Split.State Int) 0 :=
  local_idempotent (Collect.run Collect.initState [Collect.Ev.mod 0 (fun x => x + (3 : Int))])
    (Split.initState : Split.State Int) 0 (Collect.WF_run_init _) Split.WF_initState_split

/-! ### Claim C10 -/

/-- C10: `cache::get_or(k, or_fn)` with `k` already present among the
cached keys returns the stored value at `k`'s (first) index without
invoking `or_fn` (the result is independent of the supplied function) and
leaves the cache unchanged; with `k` absent it returns `or_fn(k)`, placing
the new pair at the front while the remaining pairs shift one slot toward
the back and the last pair is evicted; and `max_entries()` reports exactly
`cache_line / (sizeof(Key) + sizeof(Value))`. -/
theorem cache_get_or {Key Value : Type} [DecidableEq Key] [Inhabited Value]
    (s : Cache.State Key Value) (n : Nat) (k : Key) (fn fn2 : Key → Value)
    (ks vs cl : Nat) (hk : s.keys.length = n) :
    (k ∈ s.keys →
      (Cache.get_or s n k fn).1 = s.values.getD (s.keys.indexOf k) default
      ∧ (Cache.get_or s n k fn).2 = s
      ∧ Cache.get_or s n k fn = Cache.get_or s n k fn2)
    ∧ (k ∉ s.keys →
      (Cache.get_or s n k fn).1 = fn k
      ∧ (Cache.get_or s n k fn).2.keys = k :: s.keys.dropLast
      ∧ (Cache.get_or s n k fn).2.values = fn k :: s.values.dropLast)
    ∧ Cache.max_entries ks vs cl = cl / (ks + vs) := by
  constructor
  · intro hmem
    have hidx : s.keys.indexOf k < n := by
      rw [← hk]
      exact List.indexOf_lt_length.mpr hmem
    unfold Cache.get_or Cache.find_index
    simp [hidx]
  constructor
  · intro hmem
    have hidx : ¬ s.keys.indexOf k < n := by
      rw [← hk]
      simp [List.indexOf_eq_length.mpr hmem]
    unfold Cache.get_or Cache.find_index
    simp [hidx, Cache.insert_val]
  · rfl

/-- Witness for C10: a `cache<int, long>`-style cache in its reset state
(four slots, `empty_slot = 0`), queried with the absent key 5; width
parameters 8/8/64. -/
theorem cache_get_or_witness :
    ((5 : Nat) ∈ (Cache.initState 4 0 : Cache.State Nat Int).keys →
      (Cache.get_or (Cache.initState 4 0 : Cache.State Nat Int) 4 5 (fun j => (j : Int) * 2)).1
        = (Cache.initState 4 0 : Cache.State Nat Int).values.getD
            ((Cache.initState 4 0 : Cache.State Nat Int).keys.indexOf 5) default
      ∧ (Cache.get_or (Cache.initState 4 0 : Cache.State Nat Int) 4 5
          (fun j => (j : Int) * 2)).2 = (Cache.initState 4 0 : Cache.State Nat Int)
      ∧ Cache.get_or (Cache.initState 4 0 : Cache.State Nat Int) 4 5 (fun j => (j : Int) * 2)
        = Cache.get_or (Cache.initState 4 0 : Cache.State Nat Int) 4 5 (fun _ => (9 : Int)))
    ∧ ((5 : Nat) ∉ (Cache.initState 4 0 : Cache.State Nat Int).keys →
      (Cache.get_or (Cache.initState 4 0 : Cache.State Nat Int) 4 5 (fun j => (j : Int) * 2)).1
        = (fun j => (j : Int) * 2) 5
      ∧ (Cache.get_or (Cache.initState 4 0 : Cache.State Nat Int) 4 5
          (fun j => (j : Int) * 2)).2.keys
        = 5 :: (Cache.initState 4 0 : Cache.State Nat Int).keys.dropLast
      ∧ (Cache.get_or (Cache.initState 4 0 : Cache.State Nat Int) 4 5
          (fun j => (j : Int) * 2)).2.values
        = (fun j => (j : Int) * 2) 5 :: (Cache.initState 4 0 : Cache.State Nat Int).values.dropLast)
    ∧ Cache.max_entries 8 8 64 = 64 / (8 + 8) :=
  cache_get_or (Cache.initState 4 0 : Cache.State Nat Int) 4 5
    (fun j => (j : Int) * 2) (fun _ => (9 : Int)) 8 8 64 (by decide)

end TLS
